import Mathlib

/-!
Verification of the GapSignal core against its specification.

Shallow embedding of the Python sources:
  * `app/api/data_fetcher.py`   — expiring cache (`DataFetcher`)
  * `app/core/indicators.py`    — indicator engine (`IndicatorCalculator`)
  * `app/core/signal_detector.py` — signal detection / trend classification
  * `app/core/data_processor.py`  — per-symbol processing step

Python floats are modelled as rationals (`ℚ`), except where the source takes
a real square root (Bollinger Bands), which is modelled over `ℝ`.
Python dicts are modelled as association lists; `dict` deletion removes the
key entirely, so `del d[k]` is modelled as filtering out the key.
-/

namespace GapSignal

/-! ## Expiring cache (`app/api/data_fetcher.py`) -/

/-- One cache slot: `{'data': ..., 'timestamp': ...}` as stored by
`DataFetcher._set_to_cache`.  `timestamp` is the `time.time()` value at
insertion, modelled as a rational number of seconds. -/
structure CacheEntry (V : Type) where
  data : V
  timestamp : ℚ
deriving Repr, DecidableEq

/-- The cache-relevant state of a `DataFetcher`: the TTL
(`self.cache_duration`, 300 s in the source) and the dict `self.cache`,
modelled as an association list from key strings to entries. -/
structure DataFetcher (V : Type) where
  cache_duration : ℚ
  cache : List (String × CacheEntry V)
deriving Repr

/-- Embeds `DataFetcher._is_cache_valid`: the key is present and
`time.time() - cache_time < self.cache_duration` (strict). -/
def is_cache_valid {V : Type} (f : DataFetcher V) (now : ℚ) (key : String) : Bool :=
  match f.cache.lookup key with
  | none => false
  | some entry => now - entry.timestamp < f.cache_duration

/-- Embeds `DataFetcher._get_from_cache`: return the stored data when the entry is
valid, `None` otherwise. -/
def get_from_cache {V : Type} (f : DataFetcher V) (now : ℚ) (key : String) : Option V :=
  if is_cache_valid f now key then
    (f.cache.lookup key).map (·.data)
  else
    none

/-- Embeds `DataFetcher._set_to_cache`: `self.cache[cache_key] = {'data': data,
'timestamp': time.time()}` — dict assignment overwrites the key. -/
def set_to_cache {V : Type} (f : DataFetcher V) (now : ℚ) (key : String) (data : V) :
    DataFetcher V :=
  { f with cache := (key, ⟨data, now⟩) :: f.cache.filter (fun p => p.1 ≠ key) }

/-- Embeds `DataFetcher.clear_cache`: with no argument, clear the whole dict and
return its former size; with an argument, collect the keys that start with
it, delete each of them, and return how many were collected.  Returns the
new fetcher state together with the count. -/
def clear_cache {V : Type} (f : DataFetcher V) (keyPre : Option String) :
    DataFetcher V × ℕ :=
  match keyPre with
  | none => ({ f with cache := [] }, f.cache.length)
  | some p =>
      let keysToRemove := (f.cache.filter (fun q => q.1.startsWith p)).map Prod.fst
      let newCache := keysToRemove.foldl
        (fun c k => c.filter (fun q => q.1 ≠ k)) f.cache
      ({ f with cache := newCache }, keysToRemove.length)

/-- Result of `DataFetcher.get_cache_stats` (the three counting fields). -/
structure CacheStats where
  total_entries : ℕ
  valid_entries : ℕ
  expired_entries : ℕ
deriving Repr, DecidableEq

/-- Embeds `DataFetcher.get_cache_stats`: walk the stored entries once, counting an
entry as valid when `now - cache_time < self.cache_duration` and as expired
otherwise. -/
def get_cache_stats {V : Type} (f : DataFetcher V) (now : ℚ) : CacheStats :=
  let counts := f.cache.foldl
    (fun (acc : ℕ × ℕ) p =>
      if now - p.2.timestamp < f.cache_duration then (acc.1 + 1, acc.2)
      else (acc.1, acc.2 + 1))
    (0, 0)
  ⟨f.cache.length, counts.1, counts.2⟩

/-! ## Indicator engine (`app/core/indicators.py`) -/

/-- Embeds `np.diff(prices)`: consecutive differences. -/
def diff (prices : List ℚ) : List ℚ :=
  List.zipWith (fun a b => b - a) prices prices.tail

/-- Body of the `for i in range(period, len(deltas))` loop of
`IndicatorCalculator.calculate_rsi`, carrying `(up, down, rsi)` and
returning the state after consuming the remaining deltas.  Each step applies
Wilder smoothing to `up`/`down` and recomputes `rsi`, with `rsi = 100` when
the smoothed `down` is exactly zero. -/
def rsiLoop (period : ℕ) : List ℚ → ℚ × ℚ × ℚ → ℚ × ℚ × ℚ
  | [], s => s
  | delta :: rest, s =>
      let up := s.1
      let down := s.2.1
      let up_val := if delta > 0 then delta else 0
      let down_val := if delta > 0 then 0 else -delta
      let up' := (up * ((period : ℚ) - 1) + up_val) / (period : ℚ)
      let down' := (down * ((period : ℚ) - 1) + down_val) / (period : ℚ)
      let rsi' := if down' = 0 then 100 else 100 - 100 / (1 + up' / down')
      rsiLoop period rest (up', down', rsi')

/-- Embeds `IndicatorCalculator.calculate_rsi`: neutral `50.0` for fewer than
`period + 1` prices; otherwise seed `up`/`down` from the first `period`
deltas (gains are the deltas `≥ 0`, losses the negated deltas `< 0`, each
divided by `period`), return `100.0` immediately when the seeded `down` is
zero, and otherwise roll the remaining deltas through Wilder smoothing,
returning the `rsi` of the final loop iteration. -/
def calculate_rsi (prices : List ℚ) (period : ℕ) : ℚ :=
  if prices.length < period + 1 then 50
  else
    let deltas := diff prices
    let seed := deltas.take period
    let up := (seed.filter (fun d => d ≥ 0)).sum / (period : ℚ)
    let down := -((seed.filter (fun d => d < 0)).sum) / (period : ℚ)
    if down = 0 then 100
    else
      let rs := up / down
      let rsi := 100 - 100 / (1 + rs)
      (rsiLoop period (deltas.drop period) (up, down, rsi)).2.2

/-- The RSI as claim C1 words it: after seeding, the remaining deltas are
ALL rolled through Wilder smoothing (no early return when the seeded
average loss is zero; the seed step merely contributes `rsi = 100`), and
the returned value is the RSI of the final step. -/
def rsi_claimed (prices : List ℚ) (period : ℕ) : ℚ :=
  if prices.length < period + 1 then 50
  else
    let deltas := diff prices
    let seed := deltas.take period
    let up := (seed.filter (fun d => d ≥ 0)).sum / (period : ℚ)
    let down := -((seed.filter (fun d => d < 0)).sum) / (period : ℚ)
    let rsi0 := if down = 0 then 100 else 100 - 100 / (1 + up / down)
    (rsiLoop period (deltas.drop period) (up, down, rsi0)).2.2

/-- One Wilder smoothing step on the `(up, down)` averages alone. -/
def wilderStep (period : ℕ) (ud : ℚ × ℚ) (delta : ℚ) : ℚ × ℚ :=
  let up_val := if delta > 0 then delta else 0
  let down_val := if delta > 0 then 0 else -delta
  ((ud.1 * ((period : ℚ) - 1) + up_val) / (period : ℚ),
   (ud.2 * ((period : ℚ) - 1) + down_val) / (period : ℚ))

/-- The amended C1 description of `calculate_rsi`: `50.0` for short series;
`100.0` immediately when the seeded average loss is zero (the rolling phase
is skipped); otherwise every remaining delta is rolled through Wilder
smoothing and the result is read off the final averages, as `100.0` when
the final average loss is zero and `100 − 100/(1 + up/down)` otherwise. -/
def rsi_amended (prices : List ℚ) (period : ℕ) : ℚ :=
  if prices.length < period + 1 then 50
  else
    let deltas := diff prices
    let seed := deltas.take period
    let up := (seed.filter (fun d => d ≥ 0)).sum / (period : ℚ)
    let down := -((seed.filter (fun d => d < 0)).sum) / (period : ℚ)
    if down = 0 then 100
    else
      let finalUD := (deltas.drop period).foldl (wilderStep period) (up, down)
      if finalUD.2 = 0 then 100
      else 100 - 100 / (1 + finalUD.1 / finalUD.2)

/-- Embeds `np.mean`: arithmetic mean of a list (sum over length). -/
noncomputable def npMean (l : List ℝ) : ℝ := l.sum / (l.length : ℝ)

/-- Embeds `np.std` (default `ddof = 0`): population variance, the mean of squared
deviations from the mean. -/
noncomputable def npVar (l : List ℝ) : ℝ :=
  (l.map (fun x => (x - npMean l) ^ 2)).sum / (l.length : ℝ)

/-- Embeds `np.std`: population standard deviation. -/
noncomputable def npStd (l : List ℝ) : ℝ := Real.sqrt (npVar l)

/-- Result of `IndicatorCalculator.calculate_bollinger_bands`. -/
structure BollingerBands where
  upper : ℝ
  middle : ℝ
  lower : ℝ

/-- Embeds `IndicatorCalculator.calculate_bollinger_bands`: all-zero bundle for
fewer than `period` prices; otherwise SMA of the last `period` prices as the
middle band and `middle ± std_dev × population std` of the same window.
`prices[-period:]` is modelled as `drop (length − period)`, faithful for
`period ≥ 1`. -/
noncomputable def calculate_bollinger_bands (prices : List ℝ) (period : ℕ)
    (std_dev : ℝ) : BollingerBands :=
  if prices.length < period then ⟨0, 0, 0⟩
  else
    let window := prices.drop (prices.length - period)
    let sma := npMean window
    let std := npStd window
    ⟨sma + std_dev * std, sma, sma - std_dev * std⟩

/-- The recursive part of `pandas.Series.ewm(span=period, adjust=False)`:
`y_t = (1 − α)·y_(t−1) + α·x_t`, given the previous smoothed value. -/
def ewmStep (α : ℚ) : List ℚ → ℚ → List ℚ
  | [], _ => []
  | x :: xs, prev =>
      let y := (1 - α) * prev + α * x
      y :: ewmStep α xs y

/-- Embeds `IndicatorCalculator.calculate_ema`: an all-`NaN` list (modelled as
`none`) when `len(prices) < period`; otherwise the `ewm(span=period,
adjust=False)` mean with `α = 2/(period+1)`, seeded by the first price —
output length equals input length and every value is defined. -/
def calculate_ema (prices : List ℚ) (period : ℕ) : List (Option ℚ) :=
  if prices.length < period then prices.map (fun _ => none)
  else
    match prices with
    | [] => []
    | p :: rest =>
        let α : ℚ := 2 / ((period : ℚ) + 1)
        some p :: (ewmStep α rest p).map some

/-- Embeds `IndicatorCalculator.calculate_latest_emas` for a configured period
list: for each period, the last defined value of the full EMA series, or
`0.0` when no value is defined.  The result keeps the configuration order
(dict insertion order). -/
def calculate_latest_emas (ema_periods : List ℕ) (prices : List ℚ) :
    List (ℕ × ℚ) :=
  ema_periods.map (fun p =>
    (p, ((calculate_ema prices p).filterMap id).getLast?.getD 0))

/-- Embeds `IndicatorCalculator.calculate_ema_differences`:
`(current − ema)/ema × 100` per period, `0.0` for a zero (falsy) EMA. -/
def calculate_ema_differences (current_price : ℚ) (ema_values : List (ℕ × ℚ)) :
    List (ℕ × ℚ) :=
  ema_values.map (fun pv =>
    (pv.1, if pv.2 ≠ 0 then ((current_price - pv.2) / pv.2) * 100 else 0))

/-- Embeds `IndicatorCalculator.calculate_atr`: `0.0` when any input series is
shorter than `period`; otherwise true ranges from index 1, seed as the mean
of the first `period` true ranges, then Wilder smoothing over the rest. -/
def calculate_atr (high low close : List ℚ) (period : ℕ) : ℚ :=
  if high.length < period ∨ low.length < period ∨ close.length < period then 0
  else
    let tr_list := List.zipWith
      (fun (hl : ℚ × ℚ) (c : ℚ) => max (hl.1 - hl.2) (max |hl.1 - c| |hl.2 - c|))
      (List.zip high.tail low.tail) close
    let seed := tr_list.take period
    let atr0 := seed.sum / (seed.length : ℚ)
    (tr_list.drop period).foldl
      (fun atr tr => (atr * ((period : ℚ) - 1) + tr) / (period : ℚ)) atr0

/-- Result of `IndicatorCalculator.calculate_macd`; a `NaN` signal value is
modelled as `none`. -/
structure MacdResult where
  macd : ℚ
  signal : Option ℚ
  histogram : ℚ
deriving Repr, DecidableEq

/-- Embeds `IndicatorCalculator.calculate_macd`: all-zero bundle when
`len(prices) < slow + signal` or either latest EMA is undefined; otherwise
MACD = latest fast EMA − latest slow EMA, signal = latest EMA (period
`signal_period`) of the pointwise defined fast−slow series, histogram =
MACD − signal (or `0.0` when the signal is `NaN`). -/
def calculate_macd (prices : List ℚ) (fast_period slow_period signal_period : ℕ) :
    MacdResult :=
  if prices.length < slow_period + signal_period then ⟨0, some 0, 0⟩
  else
    let fast_ema := calculate_ema prices fast_period
    let slow_ema := calculate_ema prices slow_period
    let fast_val : Option ℚ := fast_ema.getLast?.getD none
    let slow_val : Option ℚ := slow_ema.getLast?.getD none
    match fast_val, slow_val with
    | some f, some s =>
        let macd := f - s
        let macd_prices := (List.zipWith
          (fun a b => match a, b with
            | some x, some y => some (x - y)
            | _, _ => none) fast_ema slow_ema).filterMap id
        let sigOpt : Option ℚ :=
          if macd_prices.isEmpty then some 0
          else (calculate_ema macd_prices signal_period).getLast?.getD none
        match sigOpt with
        | some sg => ⟨macd, some sg, macd - sg⟩
        | none => ⟨macd, none, 0⟩
    | _, _ => ⟨0, some 0, 0⟩

/-! ## Signal detector (`app/core/signal_detector.py`) -/

/-- A kline/candle as consumed by the detector: the source reads indices 2
(high), 3 (low) and 4 (close) of each raw kline row. -/
structure Kline where
  high : ℚ
  low : ℚ
  close : ℚ
deriving Repr, DecidableEq

/-- Embeds `SignalDetector._is_strictly_increasing`:
`all(values[i] < values[i+1] for i in range(len(values)-1))`. -/
def is_strictly_increasing : List ℚ → Bool
  | [] => true
  | [_] => true
  | a :: b :: t => decide (a < b) && is_strictly_increasing (b :: t)

/-- Embeds `SignalDetector._is_strictly_decreasing`:
`all(values[i] > values[i+1] for i in range(len(values)-1))`. -/
def is_strictly_decreasing : List ℚ → Bool
  | [] => true
  | [_] => true
  | a :: b :: t => decide (a > b) && is_strictly_decreasing (b :: t)

/-- Embeds `SignalDetector._calculate_confidence`: `0.5` when the change does not
exceed the threshold, otherwise `0.5 + min(change − threshold, threshold) /
threshold × 0.5`. -/
def calculate_confidence (change threshold : ℚ) : ℚ :=
  if change ≤ threshold then 1/2
  else 1/2 + (min (change - threshold) threshold) / threshold * (1/2)

/-- The `details` dict built by `detect_signal` (sequence classifications
plus the detector's parameters). -/
structure SignalDetails where
  low_sequence : String
  close_sequence : String
  high_sequence : String
  lookback_periods : ℕ
  change_threshold : ℚ
deriving Repr, DecidableEq

/-- The dict returned by `detect_signal`.  The early "fewer candles than
lookback" return carries an empty details dict, modelled as `none`. -/
structure SignalResult where
  signal : String
  confidence : ℚ
  cumulative_change : ℚ
  details : Option SignalDetails
deriving Repr, DecidableEq

/-- Embeds `SignalDetector.detect_signal` for a detector configured with
`lookback_periods = lookback` and
`signal_cumulative_change_threshold_percent = threshold`.
`klines[-lookback:]` is modelled as `drop (length − lookback)`, faithful for
`lookback ≥ 1`. -/
def detect_signal (lookback : ℕ) (threshold : ℚ) (klines : List Kline) :
    SignalResult :=
  if klines.length < lookback then
    ⟨"none", 0, 0, none⟩
  else
    let recent := klines.drop (klines.length - lookback)
    let lows := recent.map (·.low)
    let closes := recent.map (·.close)
    let highs := recent.map (·.high)
    let startClose := closes.headI
    let endClose := closes.getLastI
    let cumulative_change := ((endClose - startClose) / startClose) * 100
    let lowInc := is_strictly_increasing lows
    let lowDec := is_strictly_decreasing lows
    let closeInc := is_strictly_increasing closes
    let closeDec := is_strictly_decreasing closes
    let highInc := is_strictly_increasing highs
    let highDec := is_strictly_decreasing highs
    let details : SignalDetails :=
      ⟨if lowInc then "increasing" else if lowDec then "decreasing" else "mixed",
       if closeInc then "increasing" else if closeDec then "decreasing" else "mixed",
       if highInc then "increasing" else if highDec then "decreasing" else "mixed",
       lookback, threshold⟩
    if cumulative_change > threshold ∧ lowInc ∧ closeInc ∧ highInc then
      ⟨"buy", calculate_confidence cumulative_change threshold,
        cumulative_change, some details⟩
    else if cumulative_change < -threshold ∧ lowDec ∧ closeDec ∧ highDec then
      ⟨"sell", calculate_confidence (|cumulative_change|) threshold,
        cumulative_change, some details⟩
    else
      ⟨"none", 0, cumulative_change, some details⟩

/-! ### Detector lemmas -/

theorem calculate_confidence_bounds {θ : ℚ} (hθ : 0 < θ) (c : ℚ) :
    1/2 ≤ calculate_confidence c θ ∧ calculate_confidence c θ ≤ 1 := by
  unfold calculate_confidence
  split
  · norm_num
  · next h =>
      have hexc : 0 < min (c - θ) θ := lt_min (by linarith) hθ
      have hle : min (c - θ) θ ≤ θ := min_le_right _ _
      have h1 : 0 < min (c - θ) θ / θ := div_pos hexc hθ
      have h2 : min (c - θ) θ / θ ≤ 1 := (div_le_one hθ).mpr hle
      constructor <;> nlinarith

theorem calculate_confidence_mono {θ : ℚ} (hθ : 0 < θ) {c₁ c₂ : ℚ} (h : c₁ ≤ c₂) :
    calculate_confidence c₁ θ ≤ calculate_confidence c₂ θ := by
  unfold calculate_confidence
  by_cases h1 : c₁ ≤ θ
  · rw [if_pos h1]
    by_cases h2 : c₂ ≤ θ
    · rw [if_pos h2]
    · rw [if_neg h2]
      have hexc : 0 < min (c₂ - θ) θ := lt_min (by linarith) hθ
      have hpos : 0 < min (c₂ - θ) θ / θ := div_pos hexc hθ
      nlinarith
  · rw [if_neg h1, if_neg (by linarith : ¬ c₂ ≤ θ)]
    have hmin : min (c₁ - θ) θ ≤ min (c₂ - θ) θ := min_le_min (by linarith) le_rfl
    have hdiv : min (c₁ - θ) θ / θ ≤ min (c₂ - θ) θ / θ :=
      (div_le_div_iff_of_pos_right hθ).mpr hmin
    nlinarith

/-- Case shape of `detect_signal`: the result is the buy branch, the sell
branch, or a none result, with the confidence the corresponding branch
computes. -/
theorem detect_signal_cases (lookback : ℕ) (θ : ℚ) (klines : List Kline) :
    ((detect_signal lookback θ klines).signal = "buy" ∧
      (detect_signal lookback θ klines).confidence
        = calculate_confidence (detect_signal lookback θ klines).cumulative_change θ) ∨
    ((detect_signal lookback θ klines).signal = "sell" ∧
      (detect_signal lookback θ klines).confidence
        = calculate_confidence (|(detect_signal lookback θ klines).cumulative_change|) θ) ∨
    ((detect_signal lookback θ klines).signal = "none" ∧
      (detect_signal lookback θ klines).confidence = 0) := by
  unfold detect_signal
  dsimp only
  split
  · right; right; exact ⟨rfl, rfl⟩
  · split
    · left; exact ⟨rfl, rfl⟩
    · split
      · right; left; exact ⟨rfl, rfl⟩
      · right; right; exact ⟨rfl, rfl⟩

/-- Insertion step of the model of Python's `sorted` on dict items (stable
sort by key). -/
def insertByPeriod (pv : ℕ × ℚ) : List (ℕ × ℚ) → List (ℕ × ℚ)
  | [] => [pv]
  | q :: t => if pv.1 ≤ q.1 then pv :: q :: t else q :: insertByPeriod pv t

/-- Embeds `sorted(ema_values.items())`: items of the period→value dict sorted by
period. -/
def sortByPeriod (l : List (ℕ × ℚ)) : List (ℕ × ℚ) :=
  l.foldr insertByPeriod []

/-- One entry of the `ema_positions` dict built by
`SignalDetector.analyze_trend`. -/
structure EmaPosition where
  period : ℕ
  value : ℚ
  diff_percent : ℚ
  position : String
deriving Repr, DecidableEq

/-- The `ema_positions` loop of `analyze_trend`: walk the sorted items,
skip any zero EMA value (`continue`), and record value, percentage
difference from the latest close, and `above`/`below` position. -/
def ema_positions (latest_close : ℚ) (sorted_items : List (ℕ × ℚ)) :
    List EmaPosition :=
  sorted_items.filterMap (fun pv =>
    if pv.2 = 0 then none
    else
      let diff_percent := ((latest_close - pv.2) / pv.2) * 100
      some ⟨pv.1, pv.2, diff_percent,
        if diff_percent > 0 then "above" else "below"⟩)

/-- Result of `SignalDetector.analyze_trend`; the empty-klines early return
carries no `price` key, modelled as `none`. -/
structure TrendResult where
  trend : String
  ema_positions : List EmaPosition
  price : Option ℚ
deriving Repr, DecidableEq

/-- Embeds `SignalDetector.analyze_trend`: neutral with empty positions for empty
klines; otherwise build the position map over the period-sorted EMA items
(zero values excluded), and classify: all `above` ⇒ `strong_bullish`, all
`below` ⇒ `strong_bearish`, otherwise strictly descending EMA values (as
period increases) ⇒ `bullish`, strictly ascending ⇒ `bearish`, else
`neutral`; fewer than 2 positions ⇒ `neutral`. -/
def analyze_trend (klines : List Kline) (ema_values : List (ℕ × ℚ)) :
    TrendResult :=
  match klines.getLast? with
  | none => ⟨"neutral", [], none⟩
  | some lastK =>
      let latest_close := lastK.close
      let positions := ema_positions latest_close (sortByPeriod ema_values)
      let trend :=
        if 2 ≤ positions.length then
          if positions.all (fun p => p.position == "above") then "strong_bullish"
          else if positions.all (fun p => p.position == "below") then "strong_bearish"
          else if is_strictly_decreasing (positions.map (·.value)) then "bullish"
          else if is_strictly_increasing (positions.map (·.value)) then "bearish"
          else "neutral"
        else "neutral"
      ⟨trend, positions, some latest_close⟩

/-! ## Per-symbol processing (`app/core/data_processor.py`) -/

/-- The fully processed dict built by `DataProcessor.process_symbol` when
enough candles are available (fields that the source fills from other
components; `volume_24h`/`price_change_24h` are `0.0` placeholders filled
later from ticker data). -/
structure ProcessedSymbol where
  symbol : String
  current_price : ℚ
  signal : String
  confidence : ℚ
  cumulative_change : ℚ
  signal_details : Option SignalDetails
  ema_values : List (ℕ × ℚ)
  ema_differences : List (ℕ × ℚ)
  trend : String
  trend_details : List EmaPosition
  rsi : ℚ
  atr : ℚ
  bollinger_bands : BollingerBands
  macd : MacdResult
  volume_24h : ℚ
  price_change_24h : ℚ

/-- Result of `DataProcessor.process_symbol`: either the
"Insufficient data" placeholder dict or the full result. -/
inductive ProcessResult where
  | insufficient (symbol error signal : String) (confidence : ℚ)
  | processed (r : ProcessedSymbol)

/-- Embeds `DataProcessor.process_symbol` for a processor configured with EMA
periods `ema_periods`, signal lookback `lookback` and change threshold
`threshold`: fewer than 10 candles (or none) yield the placeholder
`{symbol, error: "Insufficient data", signal: "none", confidence: 0.0}`
without touching the indicator or signal components; otherwise indicators,
signal and trend are computed from the candle closes/highs/lows with the
source's default sub-periods (RSI 14, ATR 14, Bollinger 20/2.0, MACD
12/26/9). -/
noncomputable def process_symbol (ema_periods : List ℕ) (lookback : ℕ)
    (threshold : ℚ) (symbol : String) (klines : List Kline) : ProcessResult :=
  if klines.length < 10 then
    .insufficient symbol "Insufficient data" "none" 0
  else
    let close_prices := klines.map (·.close)
    let latest_emas := calculate_latest_emas ema_periods close_prices
    let current_price := close_prices.getLastI
    let ema_differences := calculate_ema_differences current_price latest_emas
    let signal_info := detect_signal lookback threshold klines
    let trend_info := analyze_trend klines latest_emas
    let high_prices := klines.map (·.high)
    let low_prices := klines.map (·.low)
    let rsi := calculate_rsi close_prices 14
    let atr := calculate_atr high_prices low_prices close_prices 14
    let bb := calculate_bollinger_bands (close_prices.map (fun q => (q : ℝ))) 20 2
    let macd := calculate_macd close_prices 12 26 9
    .processed ⟨symbol, current_price, signal_info.signal, signal_info.confidence,
      signal_info.cumulative_change, signal_info.details, latest_emas,
      ema_differences, trend_info.trend, trend_info.ema_positions, rsi, atr,
      bb, macd, 0, 0⟩

/-! ### RSI lemmas -/

theorem rsiLoop_cons (period : ℕ) (d : ℚ) (rest : List ℚ) (up down rsi : ℚ) :
    rsiLoop period (d :: rest) (up, down, rsi)
      = rsiLoop period rest
          ((wilderStep period (up, down) d).1,
           (wilderStep period (up, down) d).2,
           if (wilderStep period (up, down) d).2 = 0 then 100
           else 100 - 100 / (1 + (wilderStep period (up, down) d).1
               / (wilderStep period (up, down) d).2)) := rfl

theorem rsiLoop_final (period : ℕ) :
    ∀ (ds : List ℚ) (up down rsi : ℚ),
      (rsiLoop period ds (up, down, rsi)).2.2
        = if ds = [] then rsi
          else if (ds.foldl (wilderStep period) (up, down)).2 = 0 then 100
          else 100 - 100 / (1 + (ds.foldl (wilderStep period) (up, down)).1
              / (ds.foldl (wilderStep period) (up, down)).2) := by
  intro ds
  induction ds with
  | nil => intro up down rsi; simp [rsiLoop]
  | cons d rest ih =>
      intro up down rsi
      rw [rsiLoop_cons, ih, List.foldl_cons]
      cases rest with
      | nil => simp
      | cons e rest' => simp

theorem diff_cons_cons (a b : ℚ) (t : List ℚ) :
    diff (a :: b :: t) = (b - a) :: diff (b :: t) := rfl

theorem length_diff (l : List ℚ) : (diff l).length = l.length - 1 := by
  unfold diff
  rw [List.length_zipWith, List.length_tail]
  omega

theorem diff_nonneg_of_chain :
    ∀ (l : List ℚ), List.Chain' (· ≤ ·) l → ∀ d ∈ diff l, 0 ≤ d := by
  intro l
  induction l with
  | nil => intro _ d hd; simp [diff] at hd
  | cons a t ih =>
      cases t with
      | nil => intro _ d hd; simp [diff] at hd
      | cons b t' =>
          intro h d hd
          rw [diff_cons_cons] at hd
          rcases List.mem_cons.mp hd with rfl | hd'
          · have hab := (List.chain'_cons.mp h).1
            linarith
          · exact ih (List.chain'_cons.mp h).2 d hd'

theorem diff_neg_of_chain :
    ∀ (l : List ℚ), List.Chain' (· > ·) l → ∀ d ∈ diff l, d < 0 := by
  intro l
  induction l with
  | nil => intro _ d hd; simp [diff] at hd
  | cons a t ih =>
      cases t with
      | nil => intro _ d hd; simp [diff] at hd
      | cons b t' =>
          intro h d hd
          rw [diff_cons_cons] at hd
          rcases List.mem_cons.mp hd with rfl | hd'
          · have hab := (List.chain'_cons.mp h).1
            linarith
          · exact ih (List.chain'_cons.mp h).2 d hd'

theorem sum_nonpos_of_forall (l : List ℚ) (h : ∀ d ∈ l, d ≤ 0) : l.sum ≤ 0 := by
  induction l with
  | nil => simp
  | cons a t ih =>
      rw [List.sum_cons]
      have := h a (List.mem_cons_self a t)
      have := ih (fun d hd => h d (List.mem_cons_of_mem a hd))
      linarith

theorem sum_neg_of_forall (l : List ℚ) (hne : l ≠ []) (h : ∀ d ∈ l, d < 0) :
    l.sum < 0 := by
  cases l with
  | nil => exact absurd rfl hne
  | cons a t =>
      rw [List.sum_cons]
      have ha := h a (List.mem_cons_self a t)
      have ht := sum_nonpos_of_forall t (fun d hd => (h d (List.mem_cons_of_mem a hd)).le)
      linarith

theorem rsi_formula_bounds {u d : ℚ} (hu : 0 ≤ u) (hd : 0 < d) :
    0 ≤ 100 - 100 / (1 + u / d) ∧ 100 - 100 / (1 + u / d) ≤ 100 := by
  have hrs : 0 ≤ u / d := div_nonneg hu hd.le
  have h1 : (0 : ℚ) < 1 + u / d := by linarith
  have h2 : 100 / (1 + u / d) ≤ 100 := div_le_self (by norm_num) (by linarith)
  have h3 : 0 ≤ 100 / (1 + u / d) := div_nonneg (by norm_num) h1.le
  constructor <;> linarith

theorem wilderStep_fst_nonneg {period : ℕ} (hp : 1 ≤ period) {up down : ℚ}
    (hu : 0 ≤ up) (d : ℚ) : 0 ≤ (wilderStep period (up, down) d).1 := by
  have hpQ : (0 : ℚ) < period := by exact_mod_cast hp
  have hp1 : (0 : ℚ) ≤ (period : ℚ) - 1 := by
    have : (1 : ℚ) ≤ period := by exact_mod_cast hp
    linarith
  have hval : 0 ≤ (if d > 0 then d else 0 : ℚ) := by
    split
    · linarith
    · exact le_refl 0
  exact div_nonneg (by nlinarith) hpQ.le

theorem wilderStep_snd_nonneg {period : ℕ} (hp : 1 ≤ period) {up down : ℚ}
    (hd : 0 ≤ down) (d : ℚ) : 0 ≤ (wilderStep period (up, down) d).2 := by
  have hpQ : (0 : ℚ) < period := by exact_mod_cast hp
  have hp1 : (0 : ℚ) ≤ (period : ℚ) - 1 := by
    have : (1 : ℚ) ≤ period := by exact_mod_cast hp
    linarith
  have hval : 0 ≤ (if d > 0 then 0 else -d : ℚ) := by
    split
    · exact le_refl 0
    · next h => simp only [not_lt] at h; linarith
  exact div_nonneg (by nlinarith) hpQ.le

theorem rsiLoop_invariant (period : ℕ) (hp : 1 ≤ period) :
    ∀ (ds : List ℚ) (up down rsi : ℚ),
      0 ≤ up → 0 ≤ down → 0 ≤ rsi → rsi ≤ 100 →
      0 ≤ (rsiLoop period ds (up, down, rsi)).2.2 ∧
        (rsiLoop period ds (up, down, rsi)).2.2 ≤ 100 := by
  intro ds
  induction ds with
  | nil => intro up down rsi _ _ h0 h1; exact ⟨h0, h1⟩
  | cons d rest ih =>
      intro up down rsi hu hd _ _
      rw [rsiLoop_cons]
      have hw1 : 0 ≤ (wilderStep period (up, down) d).1 :=
        wilderStep_fst_nonneg hp hu d
      have hw2 : 0 ≤ (wilderStep period (up, down) d).2 :=
        wilderStep_snd_nonneg hp hd d
      by_cases hz : (wilderStep period (up, down) d).2 = 0
      · exact ih _ _ _ hw1 hw2
          (by rw [if_pos hz]; norm_num) (by rw [if_pos hz])
      · have hb := rsi_formula_bounds hw1 (lt_of_le_of_ne hw2 (Ne.symm hz))
        exact ih _ _ _ hw1 hw2
          (by rw [if_neg hz]; exact hb.1) (by rw [if_neg hz]; exact hb.2)

theorem rsiLoop_zero_up (period : ℕ) (hp : 1 ≤ period) :
    ∀ (ds : List ℚ), (∀ d ∈ ds, d < 0) → ∀ (down rsi : ℚ), 0 < down →
      (rsiLoop period ds (0, down, rsi)).2.2 = if ds = [] then rsi else 0 := by
  intro ds
  induction ds with
  | nil => intro _ down rsi _; simp [rsiLoop]
  | cons d rest ih =>
      intro hall down rsi hdown
      have hpQ : (0 : ℚ) < period := by exact_mod_cast hp
      have hp1 : (0 : ℚ) ≤ (period : ℚ) - 1 := by
        have : (1 : ℚ) ≤ period := by exact_mod_cast hp
        linarith
      have hdneg : d < 0 := hall d (List.mem_cons_self d rest)
      have hnotpos : ¬ d > 0 := by linarith
      have hfst : (wilderStep period (0, down) d).1 = 0 := by
        simp [wilderStep, hnotpos]
      have hsndpos : 0 < (wilderStep period (0, down) d).2 := by
        simp only [wilderStep, hnotpos, if_false]
        apply div_pos _ hpQ
        nlinarith
      have hsndne : (wilderStep period (0, down) d).2 ≠ 0 := ne_of_gt hsndpos
      rw [rsiLoop_cons, hfst]
      have hrsi : (if (wilderStep period (0, down) d).2 = 0 then (100 : ℚ)
          else 100 - 100 / (1 + 0 / (wilderStep period (0, down) d).2)) = 0 := by
        rw [if_neg hsndne, zero_div]
        norm_num
      rw [hrsi, ih (fun e he => hall e (List.mem_cons_of_mem d he)) _ _ hsndpos]
      simp

/-! ### Claim theorems: RSI -/

/-- C1 counterexample: at `prices = [1, 2, 3, 2]`, `period = 2`, the code
returns `100` (early return on a zero seeded average loss), while the RSI
described by the claim — rolling over ALL remaining deltas and returning
the RSI of the final step — is `50`. -/
theorem rsi_seed_zero_loss_divergence :
    calculate_rsi [1, 2, 3, 2] 2 = 100 ∧
    rsi_claimed [1, 2, 3, 2] 2 = 50 ∧
    calculate_rsi [1, 2, 3, 2] 2 ≠ rsi_claimed [1, 2, 3, 2] 2 := by
  refine ⟨?_, ?_, ?_⟩
  · norm_num [calculate_rsi, diff]
  · norm_num [rsi_claimed, diff, rsiLoop]
  · norm_num [calculate_rsi, rsi_claimed, diff, rsiLoop]

/-- C1 amended: `calculate_rsi` returns `50.0` for series shorter than
`period + 1`; otherwise it seeds the average gain/loss from the first
`period` deltas, returns `100.0` immediately when the seeded average loss
is exactly zero (skipping the rolling phase), and otherwise rolls every
remaining delta through Wilder smoothing
`avg = (avg*(period-1) + new_value)/period`, reading the result off the
final averages (`100.0` when the final average loss is zero). -/
theorem calculate_rsi_eq_amended (prices : List ℚ) (period : ℕ) :
    calculate_rsi prices period = rsi_amended prices period := by
  unfold calculate_rsi rsi_amended
  split
  · rfl
  · dsimp only
    split
    · rfl
    · next hdown =>
        rw [rsiLoop_final]
        by_cases hrest : (diff prices).drop period = []
        · rw [if_pos hrest, hrest]
          simp only [List.foldl_nil]
          rw [if_neg hdown]
        · rw [if_neg hrest]

/-- C6: for `period ≥ 1`: RSI on a monotonically non-decreasing series of
length ≥ `period + 1` is ≥ 50; on a strictly decreasing one it is ≤ 50;
and for every series the result lies in `[0, 100]`. -/
theorem rsi_trend_and_range (prices : List ℚ) (period : ℕ) (hp : 1 ≤ period) :
    (period + 1 ≤ prices.length → List.Chain' (· ≤ ·) prices →
      50 ≤ calculate_rsi prices period) ∧
    (period + 1 ≤ prices.length → List.Chain' (· > ·) prices →
      calculate_rsi prices period ≤ 50) ∧
    0 ≤ calculate_rsi prices period ∧ calculate_rsi prices period ≤ 100 := by
  refine ⟨?_, ?_, ?_⟩
  · intro hlen hchain
    unfold calculate_rsi
    rw [if_neg (by omega)]
    dsimp only
    have hfilter : ((diff prices).take period).filter (fun d => d < 0) = [] := by
      rw [List.filter_eq_nil_iff]
      intro d hd
      have := diff_nonneg_of_chain prices hchain d (List.mem_of_mem_take hd)
      simpa using this
    rw [hfilter]
    norm_num
  · intro hlen hchain
    have hall : ∀ d ∈ diff prices, d < 0 := diff_neg_of_chain prices hchain
    unfold calculate_rsi
    rw [if_neg (by omega)]
    dsimp only
    have hfilter1 : ((diff prices).take period).filter (fun d => d ≥ 0) = [] := by
      rw [List.filter_eq_nil_iff]
      intro d hd
      have := hall d (List.mem_of_mem_take hd)
      simpa using (by linarith : ¬ d ≥ 0)
    have hfilter2 : ((diff prices).take period).filter (fun d => d < 0)
        = (diff prices).take period := by
      rw [List.filter_eq_self]
      intro d hd
      simpa using hall d (List.mem_of_mem_take hd)
    have hlen' : ((diff prices).take period).length = period := by
      rw [List.length_take, length_diff]
      omega
    have hne : (diff prices).take period ≠ [] := by
      intro h
      rw [h] at hlen'
      simp at hlen'
      omega
    have hsum : ((diff prices).take period).sum < 0 :=
      sum_neg_of_forall _ hne (fun d hd => hall d (List.mem_of_mem_take hd))
    have hpQ : (0 : ℚ) < period := by exact_mod_cast hp
    have hdown : 0 < -((diff prices).take period).sum / (period : ℚ) :=
      div_pos (by linarith) hpQ
    rw [hfilter1, hfilter2, if_neg (ne_of_gt hdown)]
    have hup : (List.sum ([] : List ℚ)) / (period : ℚ) = 0 := by simp
    rw [List.sum_nil, zero_div]
    have hrest : ∀ d ∈ (diff prices).drop period, d < 0 :=
      fun d hd => hall d (List.mem_of_mem_drop hd)
    rw [zero_div]
    rw [rsiLoop_zero_up period hp _ hrest _ _ hdown]
    split
    · norm_num
    · norm_num
  · unfold calculate_rsi
    split
    · norm_num
    · dsimp only
      split
      · norm_num
      · next hdown =>
          have hpQ : (0 : ℚ) < period := by exact_mod_cast hp
          have hup : 0 ≤ (((diff prices).take period).filter
              (fun d => d ≥ 0)).sum / (period : ℚ) := by
            apply div_nonneg _ hpQ.le
            apply List.sum_nonneg
            intro d hd
            simpa using (List.of_mem_filter hd)
          have hdsum : (((diff prices).take period).filter
              (fun d => d < 0)).sum ≤ 0 := by
            apply sum_nonpos_of_forall
            intro d hd
            have := List.of_mem_filter hd
            simp at this
            linarith
          have hdown2 : 0 ≤ -(((diff prices).take period).filter
              (fun d => d < 0)).sum / (period : ℚ) :=
            div_nonneg (by linarith) hpQ.le
          have hdownpos : 0 < -(((diff prices).take period).filter
              (fun d => d < 0)).sum / (period : ℚ) :=
            lt_of_le_of_ne hdown2 (Ne.symm hdown)
          have hb := rsi_formula_bounds hup hdownpos
          exact rsiLoop_invariant period hp _ _ _ _ hup hdown2 hb.1 hb.2

/-- C6 witness: `prices = [1, 2, 3]`, `period = 2`. -/
theorem rsi_trend_and_range_witness :
    ((2 : ℕ) + 1 ≤ ([1, 2, 3] : List ℚ).length →
      List.Chain' (· ≤ ·) ([1, 2, 3] : List ℚ) →
      50 ≤ calculate_rsi [1, 2, 3] 2) ∧
    ((2 : ℕ) + 1 ≤ ([1, 2, 3] : List ℚ).length →
      List.Chain' (· > ·) ([1, 2, 3] : List ℚ) →
      calculate_rsi [1, 2, 3] 2 ≤ 50) ∧
    0 ≤ calculate_rsi [1, 2, 3] 2 ∧ calculate_rsi [1, 2, 3] 2 ≤ 100 :=
  rsi_trend_and_range [1, 2, 3] 2 (by decide)

/-! ### Bollinger lemmas -/

theorem npVar_nonneg (l : List ℝ) : 0 ≤ npVar l := by
  unfold npVar
  apply div_nonneg
  · apply List.sum_nonneg
    intro x hx
    rcases List.mem_map.mp hx with ⟨y, _, rfl⟩
    positivity
  · positivity

/-! ### Claim theorems: Bollinger Bands -/

/-- C7: with at least `period` prices, the bands satisfy
`lower ≤ middle ≤ upper`, strictly whenever the population variance of the
trailing window is nonzero; with fewer than `period` prices the result is
the all-zero bundle. -/
theorem bollinger_band_order (prices : List ℝ) (period : ℕ) (k : ℝ)
    (hk : 0 < k) :
    (period ≤ prices.length →
      (calculate_bollinger_bands prices period k).lower
          ≤ (calculate_bollinger_bands prices period k).middle ∧
        (calculate_bollinger_bands prices period k).middle
          ≤ (calculate_bollinger_bands prices period k).upper ∧
        (npVar (prices.drop (prices.length - period)) ≠ 0 →
          (calculate_bollinger_bands prices period k).lower
              < (calculate_bollinger_bands prices period k).middle ∧
            (calculate_bollinger_bands prices period k).middle
              < (calculate_bollinger_bands prices period k).upper)) ∧
    (prices.length < period →
      (calculate_bollinger_bands prices period k).upper = 0 ∧
        (calculate_bollinger_bands prices period k).middle = 0 ∧
        (calculate_bollinger_bands prices period k).lower = 0) := by
  constructor
  · intro hlen
    unfold calculate_bollinger_bands
    rw [if_neg (not_lt.mpr hlen)]
    dsimp only
    have hstd : 0 ≤ npStd (prices.drop (prices.length - period)) :=
      Real.sqrt_nonneg _
    refine ⟨by nlinarith, by nlinarith, ?_⟩
    intro hvar
    have hvarpos : 0 < npVar (prices.drop (prices.length - period)) :=
      lt_of_le_of_ne (npVar_nonneg _) (Ne.symm hvar)
    have hstdpos : 0 < npStd (prices.drop (prices.length - period)) :=
      Real.sqrt_pos.mpr hvarpos
    constructor <;> nlinarith
  · intro hlen
    unfold calculate_bollinger_bands
    rw [if_pos hlen]
    exact ⟨rfl, rfl, rfl⟩

/-- C7 witness: `prices = [0, 2]`, `period = 2`, `k = 1`. -/
theorem bollinger_band_order_witness :
    ((2 : ℕ) ≤ ([0, 2] : List ℝ).length →
      (calculate_bollinger_bands [0, 2] 2 1).lower
          ≤ (calculate_bollinger_bands [0, 2] 2 1).middle ∧
        (calculate_bollinger_bands [0, 2] 2 1).middle
          ≤ (calculate_bollinger_bands [0, 2] 2 1).upper ∧
        (npVar (([0, 2] : List ℝ).drop (([0, 2] : List ℝ).length - 2)) ≠ 0 →
          (calculate_bollinger_bands [0, 2] 2 1).lower
              < (calculate_bollinger_bands [0, 2] 2 1).middle ∧
            (calculate_bollinger_bands [0, 2] 2 1).middle
              < (calculate_bollinger_bands [0, 2] 2 1).upper)) ∧
    (([0, 2] : List ℝ).length < 2 →
      (calculate_bollinger_bands [0, 2] 2 1).upper = 0 ∧
        (calculate_bollinger_bands [0, 2] 2 1).middle = 0 ∧
        (calculate_bollinger_bands [0, 2] 2 1).lower = 0) :=
  bollinger_band_order [0, 2] 2 1 one_pos

/-! ### Trend lemmas -/

theorem sortByPeriod_eq_self :
    ∀ (l : List (ℕ × ℚ)), List.Chain' (fun a b => a.1 < b.1) l →
      sortByPeriod l = l := by
  intro l
  induction l with
  | nil => intro _; rfl
  | cons x t ih =>
      intro h
      have ht := (List.chain'_cons'.mp h).2
      rw [show sortByPeriod (x :: t) = insertByPeriod x (sortByPeriod t) from rfl,
        ih ht]
      cases t with
      | nil => rfl
      | cons y t' =>
          have hxy : x.1 < y.1 := (List.chain'_cons'.mp h).1 y rfl
          show insertByPeriod x (y :: t') = x :: y :: t'
          unfold insertByPeriod
          rw [if_pos hxy.le]

theorem ema_positions_periods (c : ℚ) :
    ∀ (l : List (ℕ × ℚ)),
      (ema_positions c l).map (·.period)
        = (l.filter (fun pv => pv.2 ≠ 0)).map Prod.fst := by
  intro l
  induction l with
  | nil => rfl
  | cons pv t ih =>
      by_cases h : pv.2 = 0
      · simpa [ema_positions, List.filterMap_cons, List.filter_cons, h]
          using ih
      · simpa [ema_positions, List.filterMap_cons, List.filter_cons, h]
          using ih

/-! ### Claim theorems: trend classification -/

/-- C8: with the EMA map given as its period-sorted items, the trend result
excludes zero-valued EMAs from the position map, and classifies (over the
resulting positions): all `above` ⇒ `strong_bullish`, all `below` ⇒
`strong_bearish`, otherwise strictly decreasing values as period increases
⇒ `bullish`, strictly increasing ⇒ `bearish`, else `neutral`; fewer than 2
positions ⇒ `neutral`; and with all values nonzero the position count
equals the period count. -/
theorem analyze_trend_classification (klines : List Kline)
    (ema_values : List (ℕ × ℚ)) (lastK : Kline)
    (hsorted : List.Chain' (fun a b => a.1 < b.1) ema_values)
    (hlast : klines.getLast? = some lastK) :
    (analyze_trend klines ema_values).ema_positions
        = ema_positions lastK.close ema_values ∧
    ((analyze_trend klines ema_values).ema_positions.map (·.period)
        = (ema_values.filter (fun pv => pv.2 ≠ 0)).map Prod.fst) ∧
    ((∀ pv ∈ ema_values, pv.2 ≠ 0) →
      (analyze_trend klines ema_values).ema_positions.length
        = ema_values.length) ∧
    (2 ≤ (ema_positions lastK.close ema_values).length →
      ((ema_positions lastK.close ema_values).all
          (fun p => p.position == "above") = true →
        (analyze_trend klines ema_values).trend = "strong_bullish") ∧
      ((ema_positions lastK.close ema_values).all
          (fun p => p.position == "above") = false →
        (ema_positions lastK.close ema_values).all
          (fun p => p.position == "below") = true →
        (analyze_trend klines ema_values).trend = "strong_bearish") ∧
      ((ema_positions lastK.close ema_values).all
          (fun p => p.position == "above") = false →
        (ema_positions lastK.close ema_values).all
          (fun p => p.position == "below") = false →
        is_strictly_decreasing
          ((ema_positions lastK.close ema_values).map (·.value)) = true →
        (analyze_trend klines ema_values).trend = "bullish") ∧
      ((ema_positions lastK.close ema_values).all
          (fun p => p.position == "above") = false →
        (ema_positions lastK.close ema_values).all
          (fun p => p.position == "below") = false →
        is_strictly_decreasing
          ((ema_positions lastK.close ema_values).map (·.value)) = false →
        is_strictly_increasing
          ((ema_positions lastK.close ema_values).map (·.value)) = true →
        (analyze_trend klines ema_values).trend = "bearish") ∧
      ((ema_positions lastK.close ema_values).all
          (fun p => p.position == "above") = false →
        (ema_positions lastK.close ema_values).all
          (fun p => p.position == "below") = false →
        is_strictly_decreasing
          ((ema_positions lastK.close ema_values).map (·.value)) = false →
        is_strictly_increasing
          ((ema_positions lastK.close ema_values).map (·.value)) = false →
        (analyze_trend klines ema_values).trend = "neutral")) ∧
    ((ema_positions lastK.close ema_values).length < 2 →
      (analyze_trend klines ema_values).trend = "neutral") := by
  have hpos : (analyze_trend klines ema_values).ema_positions
      = ema_positions lastK.close ema_values := by
    unfold analyze_trend
    rw [hlast]
    dsimp only
    rw [sortByPeriod_eq_self _ hsorted]
  have htrendEq : (analyze_trend klines ema_values).trend
      = if 2 ≤ (ema_positions lastK.close ema_values).length then
          (if (ema_positions lastK.close ema_values).all
              (fun p => p.position == "above") then "strong_bullish"
          else if (ema_positions lastK.close ema_values).all
              (fun p => p.position == "below") then "strong_bearish"
          else if is_strictly_decreasing
              ((ema_positions lastK.close ema_values).map (·.value)) then "bullish"
          else if is_strictly_increasing
              ((ema_positions lastK.close ema_values).map (·.value)) then "bearish"
          else "neutral")
        else "neutral" := by
    unfold analyze_trend
    rw [hlast]
    dsimp only
    rw [sortByPeriod_eq_self _ hsorted]
  refine ⟨hpos, ?_, ?_, ?_, ?_⟩
  · rw [hpos]; exact ema_positions_periods lastK.close ema_values
  · intro hnz
    have h1 := congrArg List.length (ema_positions_periods lastK.close ema_values)
    rw [List.length_map, List.length_map] at h1
    rw [hpos, h1, List.filter_eq_self.mpr]
    intro pv hpv
    simpa using hnz pv hpv
  · intro h2
    rw [htrendEq, if_pos h2]
    refine ⟨?_, ?_, ?_, ?_, ?_⟩
    · intro ha; rw [if_pos ha]
    · intro ha hb; rw [if_neg (by simp [ha]), if_pos hb]
    · intro ha hb hd
      rw [if_neg (by simp [ha]), if_neg (by simp [hb]), if_pos hd]
    · intro ha hb hd hi
      rw [if_neg (by simp [ha]), if_neg (by simp [hb]),
        if_neg (by simp [hd]), if_pos hi]
    · intro ha hb hd hi
      rw [if_neg (by simp [ha]), if_neg (by simp [hb]),
        if_neg (by simp [hd]), if_neg (by simp [hi])]
  · intro hlt
    rw [htrendEq, if_neg (by omega)]

/-- C8 witness: one candle closing at 10 with sorted nonzero EMA values
`{1 ↦ 5, 2 ↦ 6}`. -/
theorem analyze_trend_classification_witness :
    (analyze_trend [⟨10, 10, 10⟩] [(1, 5), (2, 6)]).ema_positions
        = ema_positions (10 : ℚ) [(1, 5), (2, 6)] ∧
    ((analyze_trend [⟨10, 10, 10⟩] [(1, 5), (2, 6)]).ema_positions.map (·.period)
        = (([(1, 5), (2, 6)] : List (ℕ × ℚ)).filter
            (fun pv => pv.2 ≠ 0)).map Prod.fst) ∧
    ((∀ pv ∈ ([(1, 5), (2, 6)] : List (ℕ × ℚ)), pv.2 ≠ 0) →
      (analyze_trend [⟨10, 10, 10⟩] [(1, 5), (2, 6)]).ema_positions.length
        = ([(1, 5), (2, 6)] : List (ℕ × ℚ)).length) ∧
    (2 ≤ (ema_positions (10 : ℚ) [(1, 5), (2, 6)]).length →
      ((ema_positions (10 : ℚ) [(1, 5), (2, 6)]).all
          (fun p => p.position == "above") = true →
        (analyze_trend [⟨10, 10, 10⟩] [(1, 5), (2, 6)]).trend
          = "strong_bullish") ∧
      ((ema_positions (10 : ℚ) [(1, 5), (2, 6)]).all
          (fun p => p.position == "above") = false →
        (ema_positions (10 : ℚ) [(1, 5), (2, 6)]).all
          (fun p => p.position == "below") = true →
        (analyze_trend [⟨10, 10, 10⟩] [(1, 5), (2, 6)]).trend
          = "strong_bearish") ∧
      ((ema_positions (10 : ℚ) [(1, 5), (2, 6)]).all
          (fun p => p.position == "above") = false →
        (ema_positions (10 : ℚ) [(1, 5), (2, 6)]).all
          (fun p => p.position == "below") = false →
        is_strictly_decreasing
          ((ema_positions (10 : ℚ) [(1, 5), (2, 6)]).map (·.value)) = true →
        (analyze_trend [⟨10, 10, 10⟩] [(1, 5), (2, 6)]).trend = "bullish") ∧
      ((ema_positions (10 : ℚ) [(1, 5), (2, 6)]).all
          (fun p => p.position == "above") = false →
        (ema_positions (10 : ℚ) [(1, 5), (2, 6)]).all
          (fun p => p.position == "below") = false →
        is_strictly_decreasing
          ((ema_positions (10 : ℚ) [(1, 5), (2, 6)]).map (·.value)) = false →
        is_strictly_increasing
          ((ema_positions (10 : ℚ) [(1, 5), (2, 6)]).map (·.value)) = true →
        (analyze_trend [⟨10, 10, 10⟩] [(1, 5), (2, 6)]).trend = "bearish") ∧
      ((ema_positions (10 : ℚ) [(1, 5), (2, 6)]).all
          (fun p => p.position == "above") = false →
        (ema_positions (10 : ℚ) [(1, 5), (2, 6)]).all
          (fun p => p.position == "below") = false →
        is_strictly_decreasing
          ((ema_positions (10 : ℚ) [(1, 5), (2, 6)]).map (·.value)) = false →
        is_strictly_increasing
          ((ema_positions (10 : ℚ) [(1, 5), (2, 6)]).map (·.value)) = false →
        (analyze_trend [⟨10, 10, 10⟩] [(1, 5), (2, 6)]).trend = "neutral")) ∧
    ((ema_positions (10 : ℚ) [(1, 5), (2, 6)]).length < 2 →
      (analyze_trend [⟨10, 10, 10⟩] [(1, 5), (2, 6)]).trend = "neutral") :=
  analyze_trend_classification [⟨10, 10, 10⟩] [(1, 5), (2, 6)] ⟨10, 10, 10⟩
    (List.chain'_cons.mpr ⟨by decide, List.chain'_singleton _⟩) rfl

/-! ### Claim theorems: per-symbol processing -/

/-- C9: a symbol whose candle list is empty or shorter than 10 is answered
with exactly the placeholder `{symbol, error: "Insufficient data",
signal: "none", confidence: 0.0}` — the `insufficient` constructor, built
without invoking the indicator or signal components. -/
theorem process_symbol_insufficient (ema_periods : List ℕ) (lookback : ℕ)
    (threshold : ℚ) (symbol : String) (klines : List Kline)
    (h : klines.length < 10) :
    process_symbol ema_periods lookback threshold symbol klines
      = .insufficient symbol "Insufficient data" "none" 0 := by
  unfold process_symbol
  rw [if_pos h]

/-- C9 witness: an empty candle fetch for a concrete symbol. -/
theorem process_symbol_insufficient_witness :
    process_symbol [20, 60, 120, 250] 3 1 "BTCUSDT" []
      = .insufficient "BTCUSDT" "Insufficient data" "none" 0 :=
  process_symbol_insufficient [20, 60, 120, 250] 3 1 "BTCUSDT" [] (by decide)

/-! ### Claim theorems: signal detector -/

/-- C2: for a candle window of exactly `lookback_periods` candles with a
nonzero first close, the signal is `buy` iff the cumulative close-to-close
change percentage exceeds the threshold and the low, close and high
sub-sequences are each strictly increasing; in particular, closes
`[100, 101, 102]` with strictly increasing lows/highs, `lookback = 3`,
`threshold = 0.1` give signal `buy`, cumulative change `2.0`, confidence
`1.0`. -/
theorem detect_signal_buy_iff (lookback : ℕ) (θ : ℚ) (klines : List Kline)
    (hlen : klines.length = lookback) (hlb : 0 < lookback)
    (hc : (klines.map (·.close)).headI ≠ 0) :
    ((detect_signal lookback θ klines).signal = "buy" ↔
      ((klines.map (·.close)).getLastI - (klines.map (·.close)).headI)
          / (klines.map (·.close)).headI * 100 > θ ∧
      is_strictly_increasing (klines.map (·.low)) = true ∧
      is_strictly_increasing (klines.map (·.close)) = true ∧
      is_strictly_increasing (klines.map (·.high)) = true) ∧
    detect_signal 3 (1/10)
        [⟨101, 99, 100⟩, ⟨102, 100, 101⟩, ⟨103, 101, 102⟩]
      = ⟨"buy", 1, 2, some ⟨"increasing", "increasing", "increasing", 3, 1/10⟩⟩ := by
  refine ⟨?_, by norm_num [detect_signal, calculate_confidence,
    is_strictly_increasing, is_strictly_decreasing, List.headI, List.getLastI]⟩
  unfold detect_signal
  have h1 : ¬ klines.length < lookback := by omega
  have h2 : klines.length - lookback = 0 := by omega
  rw [if_neg h1, h2, List.drop_zero]
  dsimp only
  split
  · next hcond => exact iff_of_true rfl hcond
  · next hcond =>
      split
      · refine iff_of_false ?_ hcond
        intro h
        exact (by decide : ("sell" : String) ≠ "buy") h
      · refine iff_of_false ?_ hcond
        intro h
        exact (by decide : ("none" : String) ≠ "buy") h

/-- C2 witness: the scenario-1 window itself satisfies the hypotheses. -/
theorem detect_signal_buy_iff_witness :
    ((detect_signal 3 (1/10)
        [⟨101, 99, 100⟩, ⟨102, 100, 101⟩, ⟨103, 101, 102⟩]).signal = "buy" ↔
      ((([⟨101, 99, 100⟩, ⟨102, 100, 101⟩, ⟨103, 101, 102⟩] : List Kline).map
            (·.close)).getLastI
          - (([⟨101, 99, 100⟩, ⟨102, 100, 101⟩, ⟨103, 101, 102⟩] : List Kline).map
              (·.close)).headI)
          / (([⟨101, 99, 100⟩, ⟨102, 100, 101⟩, ⟨103, 101, 102⟩] : List Kline).map
              (·.close)).headI * 100 > 1/10 ∧
      is_strictly_increasing
        (([⟨101, 99, 100⟩, ⟨102, 100, 101⟩, ⟨103, 101, 102⟩] : List Kline).map
          (·.low)) = true ∧
      is_strictly_increasing
        (([⟨101, 99, 100⟩, ⟨102, 100, 101⟩, ⟨103, 101, 102⟩] : List Kline).map
          (·.close)) = true ∧
      is_strictly_increasing
        (([⟨101, 99, 100⟩, ⟨102, 100, 101⟩, ⟨103, 101, 102⟩] : List Kline).map
          (·.high)) = true) ∧
    detect_signal 3 (1/10)
        [⟨101, 99, 100⟩, ⟨102, 100, 101⟩, ⟨103, 101, 102⟩]
      = ⟨"buy", 1, 2, some ⟨"increasing", "increasing", "increasing", 3, 1/10⟩⟩ :=
  detect_signal_buy_iff 3 (1/10)
    [⟨101, 99, 100⟩, ⟨102, 100, 101⟩, ⟨103, 101, 102⟩]
    rfl (by decide) (by simp [List.headI])

/-- C3: with a positive threshold, a detected (`buy`/`sell`) signal has
confidence in `[0.5, 1.0]`; the confidence function is monotonically
non-decreasing in the change magnitude, rises linearly from `0.5` at 1×
threshold to `1.0` at 2× threshold, saturates at `1.0` beyond; and the
returned confidence is exactly `0` iff the returned signal is `none`. -/
theorem confidence_range_mono_none (lookback : ℕ) (θ : ℚ) (klines : List Kline)
    (hθ : 0 < θ) :
    (((detect_signal lookback θ klines).signal = "buy" ∨
        (detect_signal lookback θ klines).signal = "sell") →
      1/2 ≤ (detect_signal lookback θ klines).confidence ∧
        (detect_signal lookback θ klines).confidence ≤ 1) ∧
    ((detect_signal lookback θ klines).confidence = 0 ↔
      (detect_signal lookback θ klines).signal = "none") ∧
    (∀ c₁ c₂ : ℚ, c₁ ≤ c₂ →
      calculate_confidence c₁ θ ≤ calculate_confidence c₂ θ) ∧
    (∀ c : ℚ, θ < c → c ≤ 2 * θ →
      calculate_confidence c θ = 1/2 + (c - θ) / θ * (1/2)) ∧
    (∀ c : ℚ, 2 * θ ≤ c → calculate_confidence c θ = 1) := by
  have hcases := detect_signal_cases lookback θ klines
  refine ⟨?_, ?_, fun c₁ c₂ h => calculate_confidence_mono hθ h, ?_, ?_⟩
  · intro _
    rcases hcases with ⟨_, hconf⟩ | ⟨_, hconf⟩ | ⟨hsig, hconf⟩
    · rw [hconf]; exact calculate_confidence_bounds hθ _
    · rw [hconf]; exact calculate_confidence_bounds hθ _
    · rw [hconf]
      rcases ‹_ ∨ _› with hb | hb <;> rw [hsig] at hb <;> exact absurd hb (by decide)
  · rcases hcases with ⟨hsig, hconf⟩ | ⟨hsig, hconf⟩ | ⟨hsig, hconf⟩
    · constructor
      · intro h0
        have := (calculate_confidence_bounds hθ
          (detect_signal lookback θ klines).cumulative_change).1
        rw [← hconf] at this
        rw [h0] at this
        norm_num at this
      · intro hn; rw [hsig] at hn; exact absurd hn (by decide)
    · constructor
      · intro h0
        have := (calculate_confidence_bounds hθ
          (|(detect_signal lookback θ klines).cumulative_change|)).1
        rw [← hconf] at this
        rw [h0] at this
        norm_num at this
      · intro hn; rw [hsig] at hn; exact absurd hn (by decide)
    · exact ⟨fun _ => hsig, fun _ => hconf⟩
  · intro c hc1 hc2
    unfold calculate_confidence
    rw [if_neg (by linarith)]
    have : min (c - θ) θ = c - θ := min_eq_left (by linarith)
    rw [this]
  · intro c hc
    unfold calculate_confidence
    rw [if_neg (by linarith)]
    have : min (c - θ) θ = θ := min_eq_right (by linarith)
    rw [this]
    field_simp

/-- C3 witness: the scenario-1 window at threshold `1`. -/
theorem confidence_range_mono_none_witness :
    (((detect_signal 3 1
          [⟨101, 99, 100⟩, ⟨102, 100, 101⟩, ⟨103, 101, 102⟩]).signal = "buy" ∨
        (detect_signal 3 1
          [⟨101, 99, 100⟩, ⟨102, 100, 101⟩, ⟨103, 101, 102⟩]).signal = "sell") →
      1/2 ≤ (detect_signal 3 1
          [⟨101, 99, 100⟩, ⟨102, 100, 101⟩, ⟨103, 101, 102⟩]).confidence ∧
        (detect_signal 3 1
          [⟨101, 99, 100⟩, ⟨102, 100, 101⟩, ⟨103, 101, 102⟩]).confidence ≤ 1) ∧
    ((detect_signal 3 1
        [⟨101, 99, 100⟩, ⟨102, 100, 101⟩, ⟨103, 101, 102⟩]).confidence = 0 ↔
      (detect_signal 3 1
        [⟨101, 99, 100⟩, ⟨102, 100, 101⟩, ⟨103, 101, 102⟩]).signal = "none") ∧
    (∀ c₁ c₂ : ℚ, c₁ ≤ c₂ →
      calculate_confidence c₁ 1 ≤ calculate_confidence c₂ 1) ∧
    (∀ c : ℚ, (1 : ℚ) < c → c ≤ 2 * 1 →
      calculate_confidence c 1 = 1/2 + (c - 1) / 1 * (1/2)) ∧
    (∀ c : ℚ, 2 * (1 : ℚ) ≤ c → calculate_confidence c 1 = 1) :=
  confidence_range_mono_none 3 1
    [⟨101, 99, 100⟩, ⟨102, 100, 101⟩, ⟨103, 101, 102⟩] one_pos

/-! ### Cache lemmas -/

theorem lookup_eq_some_of_nodup {V : Type} {l : List (String × CacheEntry V)}
    {k : String} {e : CacheEntry V}
    (hnd : (l.map Prod.fst).Nodup) (hmem : (k, e) ∈ l) :
    l.lookup k = some e := by
  induction l with
  | nil => cases hmem
  | cons hd tl ih =>
      rcases List.mem_cons.mp hmem with heq | htl
      · cases heq
        simp [List.lookup]
      · have hk : k ≠ hd.1 := by
          intro h
          have : k ∈ tl.map Prod.fst := List.mem_map.mpr ⟨(k, e), htl, rfl⟩
          rw [List.map_cons] at hnd
          exact (List.nodup_cons.mp hnd).1 (h ▸ this)
        have hne : (k == hd.1) = false := beq_eq_false_iff_ne.mpr hk
        cases hd with
        | mk k' e' => simp only [List.lookup, hne]; exact ih (List.nodup_cons.mp hnd).2 htl

theorem foldl_filter_ne_eq_filter_not_mem {V : Type}
    (ks : List String) (c : List (String × CacheEntry V)) :
    ks.foldl (fun c k => c.filter (fun q => q.1 ≠ k)) c
      = c.filter (fun q => decide (q.1 ∉ ks)) := by
  induction ks generalizing c with
  | nil => simp
  | cons k ks ih =>
      rw [List.foldl_cons, ih, List.filter_filter]
      apply List.filter_congr
      intro a _
      by_cases hk : a.1 = k <;> by_cases hm : a.1 ∈ ks <;> simp [hk, hm]

theorem stats_foldl_eval {V : Type} (dur now : ℚ)
    (c : List (String × CacheEntry V)) (a b : ℕ) :
    c.foldl
      (fun (acc : ℕ × ℕ) p =>
        if now - p.2.timestamp < dur then (acc.1 + 1, acc.2)
        else (acc.1, acc.2 + 1))
      (a, b)
    = (a + c.countP (fun p => decide (now - p.2.timestamp < dur)),
       b + c.countP (fun p => !decide (now - p.2.timestamp < dur))) := by
  induction c generalizing a b with
  | nil => simp
  | cons hd tl ih =>
      by_cases h : now - hd.2.timestamp < dur
      · simp only [List.foldl_cons, if_pos h, ih, List.countP_cons]
        simp [h, Nat.add_assoc, Nat.add_comm 1]
      · simp only [List.foldl_cons, if_neg h, ih, List.countP_cons]
        simp [h, Nat.add_assoc, Nat.add_comm 1]

theorem countP_add_countP_not {α : Type} (p : α → Bool) (l : List α) :
    l.countP p + l.countP (fun a => !p a) = l.length := by
  induction l with
  | nil => simp
  | cons hd tl ih =>
      by_cases h : p hd = true <;>
        simp [List.countP_cons, h, ← ih] <;> omega

/-! ### Claim theorems: cache -/

/-- C4: a cache `get` is a hit exactly when the key is present and
`now − inserted_at < ttl` (strict, so age exactly `ttl` is a miss); a `put`
followed immediately by a `get` of the same key returns the stored value
(for a positive TTL); after `ttl` seconds have elapsed, the same `get` is a
miss. -/
theorem cache_get_put_ttl {V : Type} (f : DataFetcher V) (now t : ℚ)
    (key : String) (v : V) (httl : 0 < f.cache_duration) :
    ((get_from_cache f now key).isSome = true ↔
      ∃ e, f.cache.lookup key = some e ∧ now - e.timestamp < f.cache_duration) ∧
    get_from_cache (set_to_cache f t key v) t key = some v ∧
    get_from_cache (set_to_cache f t key v) (t + f.cache_duration) key = none := by
  refine ⟨?_, ?_, ?_⟩
  · unfold get_from_cache is_cache_valid
    cases h : f.cache.lookup key with
    | none => simp [h]
    | some e =>
        by_cases hv : now - e.timestamp < f.cache_duration
        · simp [h, hv]
        · simp [h, hv]
  · unfold get_from_cache is_cache_valid set_to_cache
    simp [List.lookup, sub_self, httl]
  · unfold get_from_cache is_cache_valid set_to_cache
    simp [List.lookup]

/-- C4 witness: concrete put/get round trip with TTL 300. -/
theorem cache_get_put_ttl_witness :
    ((get_from_cache (⟨300, []⟩ : DataFetcher ℕ) 0 "k").isSome = true ↔
      ∃ e, ([] : List (String × CacheEntry ℕ)).lookup "k" = some e ∧
        (0 : ℚ) - e.timestamp < 300) ∧
    get_from_cache (set_to_cache (⟨300, []⟩ : DataFetcher ℕ) 7 "k" 42) 7 "k" = some 42 ∧
    get_from_cache (set_to_cache (⟨300, []⟩ : DataFetcher ℕ) 7 "k" 42) (7 + 300) "k" = none :=
  cache_get_put_ttl (⟨300, []⟩ : DataFetcher ℕ) 0 7 "k" 42 (by norm_num)

/-- C5: `clear_cache` with no prefix removes every entry and returns the
former entry count; with a prefix it removes exactly the entries whose key
starts with the prefix (plain string-prefix match), returns how many it
removed, and leaves the other entries unchanged. -/
theorem clear_cache_spec {V : Type} (f : DataFetcher V) (p : String) :
    (clear_cache f none).1.cache = [] ∧
    (clear_cache f none).2 = f.cache.length ∧
    (clear_cache f (some p)).1.cache
      = f.cache.filter (fun q => !(q.1.startsWith p)) ∧
    (clear_cache f (some p)).2
      = (f.cache.filter (fun q => q.1.startsWith p)).length := by
  refine ⟨rfl, rfl, ?_, by simp [clear_cache]⟩
  show ((f.cache.filter (fun q => q.1.startsWith p)).map Prod.fst).foldl
      (fun c k => c.filter (fun q => q.1 ≠ k)) f.cache
    = f.cache.filter (fun q => !(q.1.startsWith p))
  rw [foldl_filter_ne_eq_filter_not_mem]
  apply List.filter_congr
  intro a ha
  by_cases hs : a.1.startsWith p = true
  · have : a.1 ∈ (f.cache.filter (fun q => q.1.startsWith p)).map Prod.fst :=
      List.mem_map.mpr ⟨a, List.mem_filter.mpr ⟨ha, hs⟩, rfl⟩
    simp [this, hs]
  · have : a.1 ∉ (f.cache.filter (fun q => q.1.startsWith p)).map Prod.fst := by
      intro hmem
      rcases List.mem_map.mp hmem with ⟨b, hb, hba⟩
      have := (List.mem_filter.mp hb).2
      rw [hba] at this
      exact hs this
    simp [this, hs]

/-- C10: cache statistics always satisfy
`total_entries = valid_entries + expired_entries`; the valid count counts
exactly the entries passing the strict freshness test, and (for a dict-like
cache with no duplicate keys) that per-entry test coincides with the
`_is_cache_valid` test that `get` uses for hits. -/
theorem cache_stats_invariant {V : Type} (f : DataFetcher V) (now : ℚ) :
    (get_cache_stats f now).total_entries
      = (get_cache_stats f now).valid_entries
        + (get_cache_stats f now).expired_entries ∧
    (get_cache_stats f now).valid_entries
      = f.cache.countP (fun p => decide (now - p.2.timestamp < f.cache_duration)) ∧
    ((f.cache.map Prod.fst).Nodup →
      ∀ q ∈ f.cache,
        is_cache_valid f now q.1
          = decide (now - q.2.timestamp < f.cache_duration)) := by
  refine ⟨?_, ?_, ?_⟩
  · show f.cache.length = _
    unfold get_cache_stats
    rw [stats_foldl_eval]
    simpa using (countP_add_countP_not
      (fun p => decide (now - p.2.timestamp < f.cache_duration)) f.cache).symm
  · unfold get_cache_stats
    rw [stats_foldl_eval]
    simp
  · intro hnd q hq
    unfold is_cache_valid
    rw [lookup_eq_some_of_nodup hnd hq]

/-- C10 witness: a two-entry cache at time 400 with TTL 300 — one entry
fresh, one expired. -/
theorem cache_stats_invariant_witness :
    (get_cache_stats
        (⟨300, [("a", ⟨1, 350⟩), ("b", ⟨2, 50⟩)]⟩ : DataFetcher ℕ) 400).total_entries
      = (get_cache_stats
          (⟨300, [("a", ⟨1, 350⟩), ("b", ⟨2, 50⟩)]⟩ : DataFetcher ℕ) 400).valid_entries
        + (get_cache_stats
            (⟨300, [("a", ⟨1, 350⟩), ("b", ⟨2, 50⟩)]⟩ : DataFetcher ℕ) 400).expired_entries :=
  (cache_stats_invariant (⟨300, [("a", ⟨1, 350⟩), ("b", ⟨2, 50⟩)]⟩ : DataFetcher ℕ) 400).1

end GapSignal
